import Mathlib

/-!
Verification of the task supervision and graceful-shutdown engine of
`perses/common` (packages `async` and `async/taskhelper`).

The Go code is shallowly embedded as pure Lean functions.  Concurrency and
real time are made explicit:

* a task handed to `New`/`NewCron` is a `GoValue` recording which interface
  methods it implements together with the (pure) behaviour of those methods;
* the runner's `Start`/`tick`/`cron` methods are interpreted against an
  explicit environment, a list of events saying in which order the `select`
  statements observe ticker fires / timer fires / context cancellation;
  the interpretation yields the trace of observable actions and the
  returned `error`;
* `waitAll`/`JoinAll` are modelled on an explicit integer time line, each
  runner being described by the instant at which its done channel closes.
-/

namespace Perses

/-- A Go `error` value; `none` is the nil error. -/
abbrev GoErr := Option String

/-- A Go value handed to `New`/`NewCron` as an empty interface: which of the
`SimpleTask`/`Task` methods it implements, and the pure behaviour of those
methods.  `execErr n` is the error returned by the n-th call of `Execute`
(0-indexed) and `execTrigger n` says whether that call invokes the shared
`cancelFunc`. -/
structure GoValue where
  hasStringer : Bool
  hasExecute : Bool
  hasInitialize : Bool
  hasFinalize : Bool
  name : String
  initErr : GoErr
  execErr : Nat → GoErr
  execTrigger : Nat → Bool
  finalErr : GoErr

/-- The dynamic test `task.(async.SimpleTask)`: the value has the `String`
and `Execute` methods. -/
def implementsSimpleTask (v : GoValue) : Bool :=
  v.hasStringer && v.hasExecute

/-- The dynamic test `task.(async.Task)`: a `SimpleTask` that additionally
has `Initialize` and `Finalize`. -/
def implementsTask (v : GoValue) : Bool :=
  implementsSimpleTask v && v.hasInitialize && v.hasFinalize

/-- The `runner` struct of `taskhelper`: the interval (`time.Duration`, an
integer number of nanoseconds; `0` for a one-shot runner built by `New`),
the wrapped task and the `isSimpleTask` flag fixed at construction time. -/
structure RunnerModel where
  interval : Int
  task : GoValue
  isSimpleTask : Bool

/-- `taskhelper.New`: the type switch tries `async.Task` first, then
`async.SimpleTask`, and fails otherwise; the interval is left at `0`. -/
def New (task : GoValue) : Except String RunnerModel :=
  if implementsTask task then .ok ⟨0, task, false⟩
  else if implementsSimpleTask task then .ok ⟨0, task, true⟩
  else .error "task is not a SimpleTask or a Task"

/-- `taskhelper.NewCron`: rejects a non-positive interval, then performs the
same type switch as `New`. -/
def NewCron (task : GoValue) (interval : Int) : Except String RunnerModel :=
  if interval ≤ 0 then
    .error "interval cannot be negative or equal to 0 when creating a cron"
  else if implementsTask task then .ok ⟨interval, task, false⟩
  else if implementsSimpleTask task then .ok ⟨interval, task, true⟩
  else .error "task is not a SimpleTask or a Task"

/-- Observable actions of a runner.  `armTimer t` is the creation of the
cron runner's `time.NewTimer` for the fire instant `t`; `sharedTrigger n`
records that the n-th `Execute` call invoked the shared `cancelFunc`. -/
inductive Event
  | initCall
  | execCall (n : Nat)
  | sharedTrigger (n : Nat)
  | childCancel
  | finalCall
  | logFinalizeError
  | logCanceled
  | closeDone
  | armTimer (t : Int)
  | logRunError
  deriving DecidableEq, Repr

/-- What a `select` over the ticker channel and `ctx.Done()` observes. -/
inductive LoopEvt
  | tick
  | cancel
  deriving DecidableEq, Repr

/-- What the cron loop's `select` observes: a timer fire carrying the actual
fire time read from `timer.C`, or context cancellation. -/
inductive CronEvt
  | fire (t : Int)
  | cancel
  deriving DecidableEq, Repr

/-- Result of running a method body against an environment: either the
environment was exhausted with the loop still running, or the method
returned the given error. -/
inductive Outcome
  | running
  | returned (err : GoErr)
  deriving DecidableEq, Repr

/-- Error wrapping in `Start` for `Initialize`. -/
def wrapInitErr (e : String) : String :=
  "unable to call the initialize method of the task: " ++ e

/-- Error wrapping in `Start` (and in the cron loop) for `Execute`. -/
def wrapExecErr (e : String) : String :=
  "unable to call the execute method of the task: " ++ e

/-- Error wrapping in `tick` for `Execute`, which includes the task name. -/
def wrapTickExecErr (name e : String) : String :=
  "unable to call the execute method of the task " ++ name ++ ": " ++ e

/-- Events produced by the n-th `Execute` call of the task itself. -/
def execEvents (v : GoValue) (n : Nat) : List Event :=
  .execCall n :: (if v.execTrigger n then [.sharedTrigger n] else [])

/-- The `for`/`select` loop of `runner.tick`, interpreted against the
environment.  `n` is the index of the next `Execute` call.  A `tick` event
runs `Execute`; a non-nil error returns it wrapped; a `cancel` event logs
and returns nil. -/
def tickLoop (v : GoValue) (n : Nat) : List LoopEvt → List Event × Outcome
  | [] => ([], .running)
  | .cancel :: _ => ([.logCanceled], .returned none)
  | .tick :: rest =>
    match v.execErr n with
    | some e => (execEvents v n, .returned (some (wrapTickExecErr v.name e)))
    | none =>
      let p := tickLoop v (n + 1) rest
      (execEvents v n ++ p.1, p.2)

/-- `runner.tick`: returns nil immediately when the interval is not
positive, otherwise enters the ticker loop.  `n` is the index of the next
`Execute` call (1 when called from `Start`, after the synchronous call 0). -/
def tick (r : RunnerModel) (n : Nat) (env : List LoopEvt) : List Event × Outcome :=
  if r.interval ≤ 0 then ([], .returned none)
  else tickLoop r.task n env

/-- The part of `runner.Start` after initialization: the synchronous
`Execute` call, then `tick`. -/
def startBody (r : RunnerModel) (env : List LoopEvt) : List Event × Outcome :=
  match r.task.execErr 0 with
  | some e => (execEvents r.task 0, .returned (some (wrapExecErr e)))
  | none =>
    let p := tick r 1 env
    (execEvents r.task 0 ++ p.1, p.2)

/-- The deferred function of `Start` for a full task: cancel the child
scope, call `Finalize`; a finalize error becomes the returned error when
`err == nil` and is logged otherwise. -/
def finalizeDefer (v : GoValue) (err : GoErr) : List Event × GoErr :=
  match v.finalErr with
  | none => ([.childCancel, .finalCall], err)
  | some fe =>
    match err with
    | none => ([.childCancel, .finalCall], some fe)
    | some e => ([.childCancel, .finalCall, .logFinalizeError], some e)

/-- The common shape of `runner.Start` and `cronRunner.Start` around their
loop body: `defer close(done)`; for a full task, derive a child scope,
register the finalize defer, call `Initialize` and abort on error; the
deferred actions run only when the method returns (LIFO: finalize before
`close(done)`). -/
def startWrap (v : GoValue) (isSimple : Bool) (body : List Event × Outcome) :
    List Event × Outcome :=
  if isSimple then
    match body.2 with
    | .running => body
    | .returned err => (body.1 ++ [.closeDone], .returned err)
  else
    match v.initErr with
    | some ie =>
      let d := finalizeDefer v (some (wrapInitErr ie))
      (.initCall :: d.1 ++ [.closeDone], .returned d.2)
    | none =>
      match body.2 with
      | .running => (.initCall :: body.1, .running)
      | .returned err =>
        let d := finalizeDefer v err
        (.initCall :: body.1 ++ d.1 ++ [.closeDone], .returned d.2)

/-- `runner.Start`. -/
def Start (r : RunnerModel) (env : List LoopEvt) : List Event × Outcome :=
  startWrap r.task r.isSimpleTask (startBody r env)

/-- The `cronRunner` struct: the wrapped task, the `isSimpleTask` flag and
the schedule; `sched t` models `schedule.Next(t)`, the first fire instant
strictly after `t`. -/
structure CronRunnerModel where
  task : GoValue
  isSimpleTask : Bool
  sched : Int → Int

/-- The loop of `cronRunner.cron`: arm a timer for the instant `next`; on a
fire carrying the actual fire time `t`, run `Execute` (a non-nil error
returns it wrapped) and recompute `next` from `t`; on cancellation, log and
return nil. -/
def cronLoop (v : GoValue) (sched : Int → Int) (n : Nat) (next : Int) :
    List CronEvt → List Event × Outcome
  | [] => ([.armTimer next], .running)
  | .cancel :: _ => ([.armTimer next, .logCanceled], .returned none)
  | .fire t :: rest =>
    match v.execErr n with
    | some e => (.armTimer next :: execEvents v n, .returned (some (wrapExecErr e)))
    | none =>
      let p := cronLoop v sched (n + 1) (sched t) rest
      (.armTimer next :: (execEvents v n ++ p.1), p.2)

/-- `cronRunner.cron`: `now := time.Now()` is `now0`; the first timer is
armed for `schedule.Next(now0)`. -/
def cron (r : CronRunnerModel) (now0 : Int) (env : List CronEvt) :
    List Event × Outcome :=
  cronLoop r.task r.sched 0 (r.sched now0) env

/-- `cronRunner.Start`: the same wrapper as `runner.Start` around `cron`. -/
def cronStart (r : CronRunnerModel) (now0 : Int) (env : List CronEvt) :
    List Event × Outcome :=
  startWrap r.task r.isSimpleTask (cron r now0 env)

/-- `taskhelper.Run`: starts `Start` in a goroutine and logs the returned
error when it is non-nil. -/
def Run (r : RunnerModel) (env : List LoopEvt) : List Event :=
  let p := Start r env
  p.1 ++ (match p.2 with
    | .returned (some _) => [.logRunError]
    | _ => [])

/-- Launching a construction result: a failed construction yields no runner,
so `Run` never executes and no event is produced. -/
def launch (c : Except String RunnerModel) (env : List LoopEvt) : List Event :=
  match c with
  | .error _ => []
  | .ok r => Run r env

/-- Real-time schedule of the `Execute` calls of a periodic runner with
interval `Δ`, taking the instant of the synchronous call as origin: call 0
happens at time 0 and `time.NewTicker`, created immediately afterwards,
fires call `n + 1` at `(n + 1) * Δ`. -/
def execTimeModel (Δ : Int) : Nat → Int
  | 0 => 0
  | n + 1 => ((n : Int) + 1) * Δ

/-- A runner as seen by `waitAll`: its name and the instant (measured from
the start of `waitAll`) at which its done channel closes; `none` when the
runner never closes it (a hung `Execute`). -/
structure WaitRunner where
  name : String
  doneAt : Option Int

/-- One goroutine of `waitAll`: a `select` between a ticker firing at the
timeout `t` and the runner's done channel.  Returns the instant at which
the select resolves and whether the timeout branch (the error log
"took too much time to stop") was taken. -/
def perRunnerWait (t : Int) (r : WaitRunner) : Int × Bool :=
  match r.doneAt with
  | none => (t, true)
  | some d => if d ≤ t then (d, false) else (t, true)

/-- `waitAll` returns when the `WaitGroup` is exhausted: at the latest of
the per-runner resolution instants (all waits run in parallel). -/
def waitAllTime (t : Int) (rs : List WaitRunner) : Int :=
  (rs.map (fun r => (perRunnerWait t r).1)).foldr max 0

/-- Names of the runners `waitAll` logs as having taken too much time. -/
def waitAllTimeoutLogs (t : Int) (rs : List WaitRunner) : List String :=
  (rs.filter (fun r => (perRunnerWait t r).2)).map (fun r => r.name)

/-- `taskhelper.JoinAll`: block on `ctx.Done()` — never returning when the
scope is never cancelled (`cancelAt = none`) — then run `waitAll`.  The
result is the instant at which control returns to the caller; the Go
function has no error result at all. -/
def JoinAll (cancelAt : Option Int) (t : Int) (rs : List WaitRunner) : Option Int :=
  match cancelAt with
  | none => none
  | some c => some (c + waitAllTime t rs)

/-- A resolved `Future`: the `(result, resultError)` pair cached by the
goroutine started by `Async`. -/
structure ResolvedFuture (T : Type) where
  result : T
  resultError : GoErr

/-- `async.Async`: starts one goroutine which calls `f` exactly once
(invocation index 0) and caches its result; the returned pair is the
resolved future together with the number of invocations of `f`. -/
def Async {T : Type} (f : Nat → T × GoErr) : ResolvedFuture T × Nat :=
  (⟨(f 0).1, (f 0).2⟩, 1)

/-- `emptyValue`: the zero value of the type. -/
def emptyValue (T : Type) [Inhabited T] : T :=
  default

/-- The `await` closure built by `Async`, once the result channel is
closed: when the caller's context is done it returns the zero value and the
context error, otherwise the cached pair. -/
def awaitSelect {T : Type} [Inhabited T] (fut : ResolvedFuture T)
    (ctxDone : Bool) (ctxErr : String) : T × GoErr :=
  if ctxDone then (emptyValue T, some ctxErr) else (fut.result, fut.resultError)

/-- `Future.Await`: awaits with `context.Background()`, which is never
done. -/
def Await {T : Type} [Inhabited T] (fut : ResolvedFuture T) : T × GoErr :=
  awaitSelect fut false "context canceled"

/-- The results of `n` successive `Await` calls on a resolved future. -/
def awaitTimes {T : Type} [Inhabited T] (fut : ResolvedFuture T) (n : Nat) :
    List (T × GoErr) :=
  (List.range n).map (fun _ => Await fut)

/-! ### Helper lemmas about traces -/

lemma mem_execEvents {v : GoValue} {n : Nat} {ev : Event} (h : ev ∈ execEvents v n) :
    ev = .execCall n ∨ ev = .sharedTrigger n := by
  unfold execEvents at h
  by_cases ht : v.execTrigger n <;> simp [ht] at h <;> tauto

lemma mem_tickLoop {v : GoValue} {ev : Event} :
    ∀ (env : List LoopEvt) (n : Nat), ev ∈ (tickLoop v n env).1 →
      ev = .logCanceled ∨ ∃ k, ev = .execCall k ∨ ev = .sharedTrigger k := by
  intro env
  induction env with
  | nil => intro n h; simp [tickLoop] at h
  | cons hd rest ih =>
    intro n h
    cases hd with
    | cancel => simp [tickLoop] at h; exact Or.inl h
    | tick =>
      rw [tickLoop] at h
      cases hx : v.execErr n with
      | some s =>
        rw [hx] at h
        exact Or.inr ⟨n, mem_execEvents h⟩
      | none =>
        rw [hx] at h
        simp only [List.mem_append] at h
        rcases h with h | h
        · exact Or.inr ⟨n, mem_execEvents h⟩
        · exact ih (n + 1) h

lemma mem_tick {r : RunnerModel} {ev : Event} {n : Nat} {env : List LoopEvt}
    (h : ev ∈ (tick r n env).1) :
    ev = .logCanceled ∨ ∃ k, ev = .execCall k ∨ ev = .sharedTrigger k := by
  unfold tick at h
  by_cases hi : r.interval ≤ 0
  · simp [hi] at h
  · rw [if_neg hi] at h
    exact mem_tickLoop env n h

lemma mem_startBody {r : RunnerModel} {ev : Event} {env : List LoopEvt}
    (h : ev ∈ (startBody r env).1) :
    ev = .logCanceled ∨ ∃ k, ev = .execCall k ∨ ev = .sharedTrigger k := by
  unfold startBody at h
  cases hx : r.task.execErr 0 with
  | some s =>
    rw [hx] at h
    exact Or.inr ⟨0, mem_execEvents h⟩
  | none =>
    rw [hx] at h
    simp only [List.mem_append] at h
    rcases h with h | h
    · exact Or.inr ⟨0, mem_execEvents h⟩
    · exact mem_tick h

lemma mem_cronLoop {v : GoValue} {sched : Int → Int} {ev : Event} :
    ∀ (env : List CronEvt) (n : Nat) (next : Int), ev ∈ (cronLoop v sched n next env).1 →
      ev = .logCanceled ∨ (∃ t, ev = .armTimer t) ∨
        ∃ k, ev = .execCall k ∨ ev = .sharedTrigger k := by
  intro env
  induction env with
  | nil => intro n next h; simp [cronLoop] at h; exact Or.inr (Or.inl ⟨next, h⟩)
  | cons hd rest ih =>
    intro n next h
    cases hd with
    | cancel =>
      simp [cronLoop] at h
      rcases h with h | h
      · exact Or.inr (Or.inl ⟨next, h⟩)
      · exact Or.inl h
    | fire t =>
      rw [cronLoop] at h
      cases hx : v.execErr n with
      | some s =>
        rw [hx] at h
        simp only [List.mem_cons] at h
        rcases h with h | h
        · exact Or.inr (Or.inl ⟨next, h⟩)
        · exact Or.inr (Or.inr ⟨n, mem_execEvents h⟩)
      | none =>
        rw [hx] at h
        simp only [List.mem_cons, List.mem_append] at h
        rcases h with h | h | h
        · exact Or.inr (Or.inl ⟨next, h⟩)
        · exact Or.inr (Or.inr ⟨n, mem_execEvents h⟩)
        · exact ih (n + 1) (sched t) h

lemma mem_cron {r : CronRunnerModel} {ev : Event} {now0 : Int} {env : List CronEvt}
    (h : ev ∈ (cron r now0 env).1) :
    ev = .logCanceled ∨ (∃ t, ev = .armTimer t) ∨
      ∃ k, ev = .execCall k ∨ ev = .sharedTrigger k :=
  mem_cronLoop env 0 (r.sched now0) h

lemma closeDone_not_mem_startBody {r : RunnerModel} {env : List LoopEvt} :
    Event.closeDone ∉ (startBody r env).1 := by
  intro h
  rcases mem_startBody h with h | ⟨k, h | h⟩ <;> simp at h

lemma closeDone_not_mem_cron {r : CronRunnerModel} {now0 : Int} {env : List CronEvt} :
    Event.closeDone ∉ (cron r now0 env).1 := by
  intro h
  rcases mem_cron h with h | ⟨t, h⟩ | ⟨k, h | h⟩ <;> simp at h

lemma finalCall_mem_finalizeDefer (v : GoValue) (err : GoErr) :
    Event.finalCall ∈ (finalizeDefer v err).1 := by
  unfold finalizeDefer
  cases v.finalErr <;> cases err <;> simp

lemma closeDone_not_mem_finalizeDefer (v : GoValue) (err : GoErr) :
    Event.closeDone ∉ (finalizeDefer v err).1 := by
  unfold finalizeDefer
  cases v.finalErr <;> cases err <;> simp

/-- Structure of the `Start` wrapper: no `close(done)` while the body is
still running; on every returning path the trace ends with exactly one
`close(done)`, preceded (for a full task) by the `Finalize` call. -/
lemma startWrap_done (v : GoValue) (s : Bool) (body : List Event × Outcome)
    (hclose : Event.closeDone ∉ body.1) :
    ((startWrap v s body).2 = .running → Event.closeDone ∉ (startWrap v s body).1) ∧
    (∀ err, (startWrap v s body).2 = .returned err →
      ∃ pre, (startWrap v s body).1 = pre ++ [.closeDone] ∧ Event.closeDone ∉ pre ∧
        (s = false → Event.finalCall ∈ pre)) := by
  unfold startWrap
  cases s with
  | true =>
    cases hb : body.2 with
    | running =>
      refine ⟨fun _ => hclose, fun err h => ?_⟩
      simp only [if_true] at h
      rw [hb] at h
      simp at h
    | returned e0 =>
      refine ⟨fun h => by simp at h, fun err _ => ⟨body.1, rfl, hclose, fun h => by simp at h⟩⟩
  | false =>
    cases hi : v.initErr with
    | some ie =>
      refine ⟨fun h => by simp at h, fun err _ => ?_⟩
      refine ⟨.initCall :: (finalizeDefer v (some (wrapInitErr ie))).1, by simp, ?_, ?_⟩
      · intro h
        rcases List.mem_cons.mp h with h | h
        · simp at h
        · exact closeDone_not_mem_finalizeDefer _ _ h
      · exact fun _ => List.mem_cons_of_mem _ (finalCall_mem_finalizeDefer _ _)
    | none =>
      cases hb : body.2 with
      | running =>
        refine ⟨fun _ h => ?_, fun err h => by simp at h⟩
        rcases List.mem_cons.mp h with h | h
        · simp at h
        · exact hclose h
      | returned e0 =>
        refine ⟨fun h => by simp at h, fun err _ => ?_⟩
        refine ⟨.initCall :: (body.1 ++ (finalizeDefer v e0).1), by simp, ?_, ?_⟩
        · intro h
          rcases List.mem_cons.mp h with h | h
          · simp at h
          · rcases List.mem_append.mp h with h | h
            · exact hclose h
            · exact closeDone_not_mem_finalizeDefer _ _ h
        · exact fun _ =>
            List.mem_cons_of_mem _ (List.mem_append_right _ (finalCall_mem_finalizeDefer _ _))

/-- C7: on every runner (interval and cron alike) started exactly once, the
done channel is closed exactly once on every exit path of `Start` — the
trace of a returning `Start` ends with a single `close(done)`, preceded by
the `Finalize` call for a full task — and is not closed while `Start` has
not returned. -/
theorem C7_done_closed_exactly_once :
    (∀ (r : RunnerModel) (env : List LoopEvt),
      ((Start r env).2 = .running → Event.closeDone ∉ (Start r env).1) ∧
      (∀ err, (Start r env).2 = .returned err →
        ∃ pre, (Start r env).1 = pre ++ [.closeDone] ∧ Event.closeDone ∉ pre ∧
          (r.isSimpleTask = false → Event.finalCall ∈ pre))) ∧
    (∀ (c : CronRunnerModel) (now0 : Int) (env : List CronEvt),
      ((cronStart c now0 env).2 = .running → Event.closeDone ∉ (cronStart c now0 env).1) ∧
      (∀ err, (cronStart c now0 env).2 = .returned err →
        ∃ pre, (cronStart c now0 env).1 = pre ++ [.closeDone] ∧ Event.closeDone ∉ pre ∧
          (c.isSimpleTask = false → Event.finalCall ∈ pre))) := by
  constructor
  · intro r env
    exact startWrap_done r.task r.isSimpleTask (startBody r env) closeDone_not_mem_startBody
  · intro c now0 env
    exact startWrap_done c.task c.isSimpleTask (cron c now0 env) closeDone_not_mem_cron

/-! ### C1: JoinAll -/

lemma perRunnerWait_le (t : Int) (r : WaitRunner) :
    (perRunnerWait t r).1 ≤ t := by
  unfold perRunnerWait
  cases r.doneAt with
  | none => exact le_refl t
  | some d =>
    by_cases hd : d ≤ t
    · simp [hd]
    · simp [hd]

lemma waitAllTime_le (t : Int) (ht : 0 < t) (rs : List WaitRunner) :
    waitAllTime t rs ≤ t := by
  unfold waitAllTime
  induction rs with
  | nil => simpa using le_of_lt ht
  | cons r rest ih =>
    simp only [List.map_cons, List.foldr_cons]
    exact max_le (perRunnerWait_le t r) ih

/-- C1: `JoinAll` blocks while the shared context is not cancelled; once it
is cancelled at instant `c` it returns control at `c + waitAllTime`, where
every per-runner wait resolves within the timeout `t` (so the total extra
wait is at most `t`, even in parallel over all runners); a hung runner —
one whose done channel never closes — resolves exactly at the timeout and
is logged as a timeout; and `JoinAll` always returns an instant, never an
error value. -/
theorem C1_joinAll_bounded_wait (t c : Int) (rs : List WaitRunner) (ht : 0 < t) :
    JoinAll none t rs = none ∧
    JoinAll (some c) t rs = some (c + waitAllTime t rs) ∧
    (∀ r ∈ rs, (perRunnerWait t r).1 ≤ t) ∧
    waitAllTime t rs ≤ t ∧
    (∀ r ∈ rs, r.doneAt = none →
      (perRunnerWait t r).1 = t ∧ r.name ∈ waitAllTimeoutLogs t rs) := by
  refine ⟨rfl, rfl, fun r _ => perRunnerWait_le t r, waitAllTime_le t ht rs, ?_⟩
  intro r hr hnone
  constructor
  · unfold perRunnerWait
    rw [hnone]
  · unfold waitAllTimeoutLogs
    refine List.mem_map.mpr ⟨r, List.mem_filter.mpr ⟨hr, ?_⟩, rfl⟩
    unfold perRunnerWait
    rw [hnone]

/-- Concrete runners for the `JoinAll` witness: one that finishes within
the timeout and one that never closes its done channel. -/
def fastWaitRunner : WaitRunner := ⟨"fast", some 1⟩

/-- A hung runner: its done channel never closes. -/
def hungWaitRunner : WaitRunner := ⟨"hung", none⟩

theorem C1_joinAll_bounded_wait_witness :
    JoinAll none 2 [fastWaitRunner, hungWaitRunner] = none ∧
    JoinAll (some 5) 2 [fastWaitRunner, hungWaitRunner] =
      some (5 + waitAllTime 2 [fastWaitRunner, hungWaitRunner]) ∧
    (∀ r ∈ [fastWaitRunner, hungWaitRunner], (perRunnerWait 2 r).1 ≤ 2) ∧
    waitAllTime 2 [fastWaitRunner, hungWaitRunner] ≤ 2 ∧
    (∀ r ∈ [fastWaitRunner, hungWaitRunner], r.doneAt = none →
      (perRunnerWait 2 r).1 = 2 ∧ r.name ∈ waitAllTimeoutLogs 2 [fastWaitRunner, hungWaitRunner]) :=
  C1_joinAll_bounded_wait 2 5 [fastWaitRunner, hungWaitRunner] (by decide)

/-! ### C2: interval runner — immediate first call, then one call per tick -/

lemma tickLoop_replicate_cancel (v : GoValue)
    (hok : ∀ k, v.execErr k = none) (hnt : ∀ k, v.execTrigger k = false) :
    ∀ (n i : Nat) (rest : List LoopEvt),
      tickLoop v i (List.replicate n .tick ++ .cancel :: rest) =
        ((List.range' i n).map Event.execCall ++ [.logCanceled], .returned none) := by
  intro n
  induction n with
  | zero => intro i rest; simp [tickLoop]
  | succ m ih =>
    intro i rest
    rw [List.replicate_succ, List.cons_append, tickLoop, hok i]
    simp [execEvents, hnt i, ih (i + 1) rest, List.range'_succ]

/-- C2: a periodic runner calls `Execute` once synchronously before any
ticking (the trace of the body of `Start` begins with call 0 whatever the
environment does), then exactly once per elapsed interval; after `n` ticks
followed by cancellation the calls are exactly `0, …, n`, nothing is
executed after the cancellation is observed and the loop returns a nil
error.  On the real-time side, call 0 happens at time 0 and call 1 at the
first ticker fire, so the delay before the second call is exactly the
interval and not 0. -/
theorem C2_periodic_immediate_then_each_interval
    (r : RunnerModel) (n : Nat) (rest : List LoopEvt) (hΔ : 0 < r.interval)
    (hok : ∀ k, r.task.execErr k = none) (hnt : ∀ k, r.task.execTrigger k = false) :
    startBody r (List.replicate n .tick ++ .cancel :: rest) =
      ((List.range (n + 1)).map Event.execCall ++ [.logCanceled], .returned none) ∧
    (∀ env, (startBody r env).1.head? = some (.execCall 0)) ∧
    (∀ m, tick r m (.cancel :: rest) = ([.logCanceled], .returned none)) ∧
    execTimeModel r.interval 1 - execTimeModel r.interval 0 = r.interval ∧
    execTimeModel r.interval 1 ≠ 0 := by
  refine ⟨?_, ?_, ?_, ?_, ?_⟩
  · rw [startBody, hok 0]
    simp only [tick, if_neg (not_le.mpr hΔ),
      tickLoop_replicate_cancel r.task hok hnt n 1 rest]
    rw [List.range_eq_range', List.range'_succ]
    simp [execEvents, hnt 0]
  · intro env
    rw [startBody, hok 0]
    simp [execEvents, hnt 0]
  · intro m
    rw [tick, if_neg (not_le.mpr hΔ)]
    simp [tickLoop]
  · simp [execTimeModel]
  · simp only [execTimeModel]
    simpa using ne_of_gt hΔ

/-- A well-behaved full task: every method succeeds and no `Execute` call
invokes the shared trigger. -/
def okTask : GoValue :=
  ⟨true, true, true, true, "ok", none, fun _ => none, fun _ => false, none⟩

/-- The periodic runner over `okTask` with interval 5. -/
def okCronRunner : RunnerModel := ⟨5, okTask, false⟩

theorem C2_periodic_immediate_then_each_interval_witness :
    startBody okCronRunner (List.replicate 2 .tick ++ .cancel :: []) =
      ((List.range 3).map Event.execCall ++ [.logCanceled], .returned none) ∧
    (∀ env, (startBody okCronRunner env).1.head? = some (.execCall 0)) ∧
    (∀ m, tick okCronRunner m (.cancel :: []) = ([.logCanceled], .returned none)) ∧
    execTimeModel okCronRunner.interval 1 - execTimeModel okCronRunner.interval 0 =
      okCronRunner.interval ∧
    execTimeModel okCronRunner.interval 1 ≠ 0 :=
  C2_periodic_immediate_then_each_interval okCronRunner 2 []
    (by decide) (fun _ => rfl) (fun _ => rfl)

/-! ### C3: initialize error skips Execute, Finalize still runs -/

/-- C3: when `Initialize` of a full task fails, `Start` never calls
`Execute`, skips the ticking, still calls `Finalize` exactly once right
after cancelling the derived child scope, and returns the wrapped
initialize error as the runner's terminal error (whatever `Finalize`
itself returns). -/
theorem C3_init_error_skips_execute (r : RunnerModel) (env : List LoopEvt) (ie : String)
    (hfull : r.isSimpleTask = false) (hie : r.task.initErr = some ie) :
    (Start r env).2 = .returned (some (wrapInitErr ie)) ∧
    (∀ k, Event.execCall k ∉ (Start r env).1) ∧
    (Start r env).1.count .finalCall = 1 ∧
    ∃ post, (Start r env).1 = .initCall :: .childCancel :: .finalCall :: post := by
  cases hf : r.task.finalErr with
  | none =>
    have hT : Start r env =
        ([.initCall, .childCancel, .finalCall, .closeDone],
         .returned (some (wrapInitErr ie))) := by
      unfold Start startWrap finalizeDefer
      rw [hfull, hie, hf]
      simp
    refine ⟨by rw [hT], fun k h => ?_, by rw [hT]; rfl, ⟨[.closeDone], by rw [hT]⟩⟩
    rw [hT] at h
    simp at h
  | some fe =>
    have hT : Start r env =
        ([.initCall, .childCancel, .finalCall, .logFinalizeError, .closeDone],
         .returned (some (wrapInitErr ie))) := by
      unfold Start startWrap finalizeDefer
      rw [hfull, hie, hf]
      simp
    refine ⟨by rw [hT], fun k h => ?_, by rw [hT]; rfl,
      ⟨[.logFinalizeError, .closeDone], by rw [hT]⟩⟩
    rw [hT] at h
    simp at h

/-- A full task whose `Initialize` fails. -/
def badInitTask : GoValue :=
  ⟨true, true, true, true, "bi", some "boom", fun _ => none, fun _ => false, none⟩

/-- The one-shot runner over `badInitTask`. -/
def badInitRunner : RunnerModel := ⟨0, badInitTask, false⟩

theorem C3_init_error_skips_execute_witness :
    (Start badInitRunner []).2 = .returned (some (wrapInitErr "boom")) ∧
    (∀ k, Event.execCall k ∉ (Start badInitRunner []).1) ∧
    (Start badInitRunner []).1.count .finalCall = 1 ∧
    ∃ post, (Start badInitRunner []).1 = .initCall :: .childCancel :: .finalCall :: post :=
  C3_init_error_skips_execute badInitRunner [] "boom" rfl rfl

/-! ### C4: what happens to a Finalize error -/

/-- A full task whose `Finalize` fails while everything else succeeds. -/
def finErrTask : GoValue :=
  ⟨true, true, true, true, "fe", none, fun _ => none, fun _ => false, some "final failure"⟩

/-- The one-shot runner over `finErrTask`. -/
def finErrRunner : RunnerModel := ⟨0, finErrTask, false⟩

/-- C4 counterexample: with no earlier error, the `Finalize` error *does*
become the error returned by `Start` and is *not* logged, refuting the
claim that a `Finalize` error is always logged and never escalated. -/
theorem C4_counterexample_finalize_error_escalates :
    (Start finErrRunner []).2 = .returned (some "final failure") ∧
    Event.logFinalizeError ∉ (Start finErrRunner []).1 := by
  decide

/-- C4 amended: a `Finalize` error never overrides an earlier `Initialize`
or `Execute` error already captured as the runner's outcome — in that case
it is logged — but when no earlier error exists the `Finalize` error
becomes the error returned by `Start` (and is then not logged). -/
theorem C4_amended_finalize_error_policy (r : RunnerModel) (env : List LoopEvt) (fe : String)
    (hfull : r.isSimpleTask = false) (hfe : r.task.finalErr = some fe) :
    (∀ ie, r.task.initErr = some ie →
      (Start r env).2 = .returned (some (wrapInitErr ie)) ∧
      Event.logFinalizeError ∈ (Start r env).1) ∧
    (∀ e, r.task.initErr = none → r.task.execErr 0 = some e →
      (Start r env).2 = .returned (some (wrapExecErr e)) ∧
      Event.logFinalizeError ∈ (Start r env).1) ∧
    (r.task.initErr = none → r.task.execErr 0 = none → r.interval ≤ 0 →
      (Start r env).2 = .returned (some fe) ∧
      Event.logFinalizeError ∉ (Start r env).1) := by
  refine ⟨?_, ?_, ?_⟩
  · intro ie hie
    unfold Start startWrap finalizeDefer
    rw [hfull, hie, hfe]
    simp
  · intro e hie hex
    unfold Start startWrap startBody finalizeDefer
    rw [hfull, hie, hex, hfe]
    simp
  · intro hie hex hiv
    unfold Start startWrap startBody tick finalizeDefer
    rw [hfull, hie, hex, hfe, if_pos hiv]
    cases ht : r.task.execTrigger 0 <;> simp [execEvents, ht]

theorem C4_amended_finalize_error_policy_witness :
    (∀ ie, finErrRunner.task.initErr = some ie →
      (Start finErrRunner []).2 = .returned (some (wrapInitErr ie)) ∧
      Event.logFinalizeError ∈ (Start finErrRunner []).1) ∧
    (∀ e, finErrRunner.task.initErr = none → finErrRunner.task.execErr 0 = some e →
      (Start finErrRunner []).2 = .returned (some (wrapExecErr e)) ∧
      Event.logFinalizeError ∈ (Start finErrRunner []).1) ∧
    (finErrRunner.task.initErr = none → finErrRunner.task.execErr 0 = none →
      finErrRunner.interval ≤ 0 →
      (Start finErrRunner []).2 = .returned (some "final failure") ∧
      Event.logFinalizeError ∉ (Start finErrRunner []).1) :=
  C4_amended_finalize_error_policy finErrRunner [] "final failure" rfl rfl

/-! ### C5: construction errors -/

lemma construction_error_facts {c : Except String RunnerModel} {msg : String}
    (hc : c = .error msg) :
    (∃ m, c = .error m) ∧ (∀ r, c ≠ .ok r) ∧ (∀ env, launch c env = []) := by
  subst hc
  refine ⟨⟨msg, rfl⟩, ?_, ?_⟩
  · intro r h
    exact Except.noConfusion h
  · intro env
    rfl

/-- C5: `NewCron` returns a configuration error (and hence no runner) for a
non-positive interval; both `New` and `NewCron` return a configuration
error when the value implements neither the `SimpleTask` nor the `Task`
shape; and a failed construction yields no runner at all, so nothing is
launched and no `Execute` call ever happens. -/
theorem C5_construction_errors (v : GoValue) (d : Int) :
    (d ≤ 0 →
      (∃ msg, NewCron v d = .error msg) ∧
      (∀ r, NewCron v d ≠ .ok r) ∧
      (∀ env, launch (NewCron v d) env = [])) ∧
    (implementsSimpleTask v = false → implementsTask v = false →
      ((∃ msg, New v = .error msg) ∧
       (∀ r, New v ≠ .ok r) ∧
       (∀ env, launch (New v) env = [])) ∧
      ((∃ msg, NewCron v d = .error msg) ∧
       (∀ r, NewCron v d ≠ .ok r) ∧
       (∀ env, launch (NewCron v d) env = []))) := by
  constructor
  · intro hd
    have hc : NewCron v d =
        .error "interval cannot be negative or equal to 0 when creating a cron" := by
      unfold NewCron
      rw [if_pos hd]
    exact construction_error_facts hc
  · intro hs ht
    have hn : New v = .error "task is not a SimpleTask or a Task" := by
      unfold New
      rw [ht, hs]
      simp
    refine ⟨construction_error_facts hn, ?_⟩
    by_cases hd : d ≤ 0
    · have hc : NewCron v d =
          .error "interval cannot be negative or equal to 0 when creating a cron" := by
        unfold NewCron
        rw [if_pos hd]
      exact construction_error_facts hc
    · have hc : NewCron v d = .error "task is not a SimpleTask or a Task" := by
        unfold NewCron
        rw [if_neg hd, ht, hs]
        simp
      exact construction_error_facts hc

/-- A value that implements neither task shape (no `Execute` method). -/
def neitherTask : GoValue :=
  ⟨true, false, true, true, "n", none, fun _ => none, fun _ => false, none⟩

theorem C5_construction_errors_witness :
    ((∃ msg, NewCron neitherTask (-1) = .error msg) ∧
     (∀ r, NewCron neitherTask (-1) ≠ .ok r) ∧
     (∀ env, launch (NewCron neitherTask (-1)) env = [])) ∧
    ((∃ msg, New neitherTask = .error msg) ∧
     (∀ r, New neitherTask ≠ .ok r) ∧
     (∀ env, launch (New neitherTask) env = [])) ∧
    ((∃ msg, NewCron neitherTask (-1) = .error msg) ∧
     (∀ r, NewCron neitherTask (-1) ≠ .ok r) ∧
     (∀ env, launch (NewCron neitherTask (-1)) env = [])) :=
  ⟨(C5_construction_errors neitherTask (-1)).1 (by decide),
   ((C5_construction_errors neitherTask (-1)).2 rfl rfl).1,
   ((C5_construction_errors neitherTask (-1)).2 rfl rfl).2⟩

/-! ### C6: cron runner — first Execute only at the first occurrence,
next fire recomputed from the actual fire time -/

/-- C6: the cron loop first arms a timer for the first scheduled occurrence
after `now0` (whatever the environment then does), so no `Execute` happens
before the first fire and none at all when cancellation comes first (with a
nil error); after each fire the next fire time is recomputed from the
actual fire time delivered by the timer — on fires at `t1` and then `t2`
the armed instants are `sched now0`, `sched t1`, `sched t2` — and
cancellation during the sleep ends the loop with a nil error. -/
theorem C6_cron_schedule (v : GoValue) (sched : Int → Int) (now0 t1 t2 : Int)
    (h0 : v.execErr 0 = none) (h1 : v.execErr 1 = none)
    (g0 : v.execTrigger 0 = false) (g1 : v.execTrigger 1 = false) :
    (∀ b env, (cron ⟨v, b, sched⟩ now0 env).1.head? = some (.armTimer (sched now0))) ∧
    (∀ b rest, cron ⟨v, b, sched⟩ now0 (.cancel :: rest) =
      ([.armTimer (sched now0), .logCanceled], .returned none)) ∧
    (∀ rest k, Event.execCall k ∉ (cronStart ⟨v, true, sched⟩ now0 (.cancel :: rest)).1) ∧
    (∀ b, cron ⟨v, b, sched⟩ now0 [.fire t1, .fire t2, .cancel] =
      ([.armTimer (sched now0), .execCall 0, .armTimer (sched t1), .execCall 1,
        .armTimer (sched t2), .logCanceled], .returned none)) := by
  refine ⟨?_, ?_, ?_, ?_⟩
  · intro b env
    cases env with
    | nil => rfl
    | cons hd rest =>
      cases hd with
      | cancel => rfl
      | fire t =>
        unfold cron cronLoop
        rw [h0]
        simp [execEvents]
  · intro b rest
    rfl
  · intro rest k h
    unfold cronStart startWrap cron cronLoop at h
    simp at h
  · intro b
    unfold cron cronLoop
    rw [h0]
    unfold cronLoop
    rw [h1]
    simp [execEvents, g0, g1, cronLoop]

/-- A schedule firing 10 time units after the given instant. -/
def plusTen : Int → Int := fun t => t + 10

theorem C6_cron_schedule_witness :
    (∀ b env, (cron ⟨okTask, b, plusTen⟩ 0 env).1.head? = some (.armTimer (plusTen 0))) ∧
    (∀ b rest, cron ⟨okTask, b, plusTen⟩ 0 (.cancel :: rest) =
      ([.armTimer (plusTen 0), .logCanceled], .returned none)) ∧
    (∀ rest k, Event.execCall k ∉ (cronStart ⟨okTask, true, plusTen⟩ 0 (.cancel :: rest)).1) ∧
    (∀ b, cron ⟨okTask, b, plusTen⟩ 0 [.fire 11, .fire 25, .cancel] =
      ([.armTimer (plusTen 0), .execCall 0, .armTimer (plusTen 11), .execCall 1,
        .armTimer (plusTen 25), .logCanceled], .returned none)) :=
  C6_cron_schedule okTask plusTen 0 11 25 rfl rfl rfl rfl

/-! ### C8: an Execute error stops the loop; the runner never fires the
shared trigger itself -/

lemma sharedTrigger_mem_execEvents {v : GoValue} {n k : Nat}
    (h : Event.sharedTrigger k ∈ execEvents v n) : v.execTrigger k = true := by
  unfold execEvents at h
  cases ht : v.execTrigger n with
  | false => simp [ht] at h
  | true =>
    simp [ht] at h
    subst h
    exact ht

lemma sharedTrigger_mem_tickLoop {v : GoValue} {k : Nat} :
    ∀ (env : List LoopEvt) (n : Nat),
      Event.sharedTrigger k ∈ (tickLoop v n env).1 → v.execTrigger k = true := by
  intro env
  induction env with
  | nil => intro n h; simp [tickLoop] at h
  | cons hd rest ih =>
    intro n h
    cases hd with
    | cancel => simp [tickLoop] at h
    | tick =>
      rw [tickLoop] at h
      cases hx : v.execErr n with
      | some s =>
        rw [hx] at h
        exact sharedTrigger_mem_execEvents h
      | none =>
        rw [hx] at h
        simp only [List.mem_append] at h
        rcases h with h | h
        · exact sharedTrigger_mem_execEvents h
        · exact ih (n + 1) h

lemma sharedTrigger_mem_startBody {r : RunnerModel} {env : List LoopEvt} {k : Nat}
    (h : Event.sharedTrigger k ∈ (startBody r env).1) : r.task.execTrigger k = true := by
  unfold startBody at h
  cases hx : r.task.execErr 0 with
  | some s =>
    rw [hx] at h
    exact sharedTrigger_mem_execEvents h
  | none =>
    rw [hx] at h
    simp only [List.mem_append] at h
    rcases h with h | h
    · exact sharedTrigger_mem_execEvents h
    · unfold tick at h
      by_cases hi : r.interval ≤ 0
      · simp [hi] at h
      · rw [if_neg hi] at h
        exact sharedTrigger_mem_tickLoop env 1 h

lemma mem_finalizeDefer {v : GoValue} {err : GoErr} {ev : Event}
    (h : ev ∈ (finalizeDefer v err).1) :
    ev = .childCancel ∨ ev = .finalCall ∨ ev = .logFinalizeError := by
  unfold finalizeDefer at h
  cases hf : v.finalErr with
  | none => rw [hf] at h; simp at h; tauto
  | some fe => rw [hf] at h; cases err <;> simp at h <;> tauto

lemma mem_startWrap {v : GoValue} {s : Bool} {body : List Event × Outcome} {ev : Event}
    (h : ev ∈ (startWrap v s body).1) :
    ev ∈ body.1 ∨ ev = .initCall ∨ ev = .closeDone ∨
      ev = .childCancel ∨ ev = .finalCall ∨ ev = .logFinalizeError := by
  obtain ⟨tr, oc⟩ := body
  unfold startWrap at h
  cases s with
  | true =>
    cases oc with
    | running => exact Or.inl h
    | returned e0 =>
      simp only [if_true] at h
      rcases List.mem_append.mp h with h | h
      · exact Or.inl h
      · simp at h; tauto
  | false =>
    cases hi : v.initErr with
    | some ie =>
      rw [hi] at h
      simp only [Bool.false_eq_true, if_false] at h
      rcases List.mem_cons.mp h with h | h
      · tauto
      · rcases List.mem_append.mp h with h | h
        · rcases mem_finalizeDefer h with h | h | h <;> tauto
        · simp at h; tauto
    | none =>
      rw [hi] at h
      cases oc with
      | running =>
        simp only [Bool.false_eq_true, if_false] at h
        rcases List.mem_cons.mp h with h | h
        · tauto
        · exact Or.inl h
      | returned e0 =>
        simp only [Bool.false_eq_true, if_false] at h
        rcases List.mem_cons.mp h with h | h
        · tauto
        · rcases List.mem_append.mp h with h | h
          · rcases List.mem_append.mp h with h | h
            · exact Or.inl h
            · rcases mem_finalizeDefer h with h | h | h <;> tauto
          · simp at h; tauto

lemma sharedTrigger_not_mem_Start (r : RunnerModel) (env : List LoopEvt) (k : Nat)
    (hall : ∀ m, r.task.execTrigger m = false) :
    Event.sharedTrigger k ∉ (Start r env).1 := by
  intro h
  rcases mem_startWrap h with h | h | h | h | h | h
  · have hk := sharedTrigger_mem_startBody h
    rw [hall k] at hk
    cases hk
  all_goals simp at h

lemma tickLoop_stops (v : GoValue) (e : String) :
    ∀ (n i : Nat) (rest : List LoopEvt),
      (∀ k, k < n → v.execErr (i + k) = none) →
      (∀ k, k ≤ n → v.execTrigger (i + k) = false) →
      v.execErr (i + n) = some e →
      tickLoop v i (List.replicate (n + 1) LoopEvt.tick ++ rest) =
        ((List.range' i (n + 1)).map Event.execCall,
         .returned (some (wrapTickExecErr v.name e))) := by
  intro n
  induction n with
  | zero =>
    intro i rest hok htr he
    have he' : v.execErr i = some e := he
    have ht0 : v.execTrigger i = false := htr 0 (le_refl 0)
    rw [List.replicate_succ, List.cons_append, tickLoop, he']
    simp [execEvents, ht0, List.range'_succ]
  | succ m ih =>
    intro i rest hok htr he
    have h0 : v.execErr i = none := hok 0 (Nat.succ_pos m)
    have ht0 : v.execTrigger i = false := htr 0 (Nat.zero_le _)
    have hrec := ih (i + 1) rest
      (fun k hk => by
        have hx := hok (k + 1) (Nat.succ_lt_succ hk)
        rwa [show i + (k + 1) = i + 1 + k by omega] at hx)
      (fun k hk => by
        have hx := htr (k + 1) (Nat.succ_le_succ hk)
        rwa [show i + (k + 1) = i + 1 + k by omega] at hx)
      (by rwa [show i + 1 + m = i + (m + 1) by omega])
    rw [List.replicate_succ, List.cons_append, tickLoop, h0]
    simp [execEvents, ht0, hrec, List.range'_succ]

/-- C8: for a periodic runner, a non-nil error of the `Execute` call made
on the (n+1)-th tick stops the loop permanently — the trace is independent
of whatever the environment would offer afterwards, with no retry — and is
returned, wrapped, as the runner's outcome; `Run` (the caller of `Start`)
then logs that error; and the runner machinery itself never fires the
shared cancellation trigger: a `sharedTrigger` event can only come from the
task's own `Execute` behaviour. -/
theorem C8_execute_error_stops_runner (v : GoValue) (Δ : Int) (e : String) (n : Nat)
    (rest : List LoopEvt) (hΔ : 0 < Δ)
    (hok : ∀ k, k ≤ n → v.execErr k = none)
    (hnt : ∀ k, v.execTrigger k = false)
    (he : v.execErr (n + 1) = some e) :
    Start ⟨Δ, v, true⟩ (List.replicate (n + 1) .tick ++ rest) =
      ((List.range (n + 2)).map Event.execCall ++ [.closeDone],
       .returned (some (wrapTickExecErr v.name e))) ∧
    Run ⟨Δ, v, true⟩ (List.replicate (n + 1) .tick ++ rest) =
      (List.range (n + 2)).map Event.execCall ++ [.closeDone, .logRunError] ∧
    (∀ (b : Bool) (k : Nat) (env : List LoopEvt),
      Event.sharedTrigger k ∉ (Start ⟨Δ, v, b⟩ env).1) := by
  have hLoop := tickLoop_stops v e n 1 rest
    (fun k hk => hok (1 + k) (by omega))
    (fun k _ => hnt (1 + k))
    (by rwa [show 1 + n = n + 1 by omega])
  have hBody : startBody ⟨Δ, v, true⟩ (List.replicate (n + 1) .tick ++ rest) =
      ((List.range (n + 2)).map Event.execCall,
       .returned (some (wrapTickExecErr v.name e))) := by
    unfold startBody
    have h0 : v.execErr 0 = none := hok 0 (Nat.zero_le n)
    rw [h0]
    simp only [tick, if_neg (not_le.mpr hΔ), hLoop]
    have hr : List.range' 0 (n + 2) = 0 :: List.range' 1 (n + 1) := by
      rw [List.range'_succ]
    rw [List.range_eq_range', hr]
    simp [execEvents, hnt 0]
  have hStart : Start ⟨Δ, v, true⟩ (List.replicate (n + 1) .tick ++ rest) =
      ((List.range (n + 2)).map Event.execCall ++ [.closeDone],
       .returned (some (wrapTickExecErr v.name e))) := by
    unfold Start startWrap
    rw [hBody]
    simp
  refine ⟨hStart, ?_, ?_⟩
  · unfold Run
    rw [hStart]
    simp
  · intro b k env
    exact sharedTrigger_not_mem_Start ⟨Δ, v, b⟩ env k hnt

/-- A simple task whose third `Execute` call (index 2) fails. -/
def failThirdTask : GoValue :=
  ⟨true, true, false, false, "w", none,
   fun k => if k ≤ 1 then none else some "x", fun _ => false, none⟩

theorem C8_execute_error_stops_runner_witness :
    Start ⟨5, failThirdTask, true⟩ (List.replicate 2 .tick ++ []) =
      ((List.range 3).map Event.execCall ++ [.closeDone],
       .returned (some (wrapTickExecErr failThirdTask.name "x"))) ∧
    Run ⟨5, failThirdTask, true⟩ (List.replicate 2 .tick ++ []) =
      (List.range 3).map Event.execCall ++ [.closeDone, .logRunError] ∧
    (∀ (b : Bool) (k : Nat) (env : List LoopEvt),
      Event.sharedTrigger k ∉ (Start ⟨5, failThirdTask, b⟩ env).1) :=
  C8_execute_error_stops_runner failThirdTask 5 "x" 1 [] (by decide)
    (fun k hk => by
      have : k ≤ 1 := hk
      simp [failThirdTask, this])
    (fun _ => rfl) rfl

/-! ### C9: Future/Await idempotence -/

/-- C9: `Async f` runs `f` exactly once, in the goroutine it starts; once
the future has resolved, `Await` returns the cached `(value, error)` pair,
and any number of successive `Await` calls all return that identical pair
with no further invocation of `f`. -/
theorem C9_future_await_idempotent (T : Type) [Inhabited T] (f : Nat → T × GoErr) (n : Nat) :
    (Async f).2 = 1 ∧
    Await (Async f).1 = ((f 0).1, (f 0).2) ∧
    awaitTimes (Async f).1 n = List.replicate n ((f 0).1, (f 0).2) := by
  refine ⟨rfl, rfl, ?_⟩
  unfold awaitTimes
  rw [List.eq_replicate_iff]
  refine ⟨by simp, ?_⟩
  intro b hb
  rcases List.mem_map.mp hb with ⟨i, _, hbe⟩
  rw [← hbe]
  rfl

theorem C9_future_await_idempotent_witness :
    (Async (fun _ => ((7 : Nat), (none : GoErr)))).2 = 1 ∧
    Await (Async (fun _ => ((7 : Nat), (none : GoErr)))).1 = (7, none) ∧
    awaitTimes (Async (fun _ => ((7 : Nat), (none : GoErr)))).1 2 =
      List.replicate 2 (7, none) :=
  C9_future_await_idempotent Nat (fun _ => (7, none)) 2

/-! ### C10: a full Task is always classified as a full task -/

lemma initCall_mem_startWrap (v : GoValue) (body : List Event × Outcome) :
    Event.initCall ∈ (startWrap v false body).1 := by
  obtain ⟨tr, oc⟩ := body
  unfold startWrap
  cases hi : v.initErr with
  | some ie => simp
  | none => cases oc <;> simp

/-- With a zero interval (a `New` runner) the body of `Start` always
returns. -/
lemma startBody_zero_returns (v : GoValue) (b : Bool) (env : List LoopEvt) :
    ∃ err, (startBody ⟨0, v, b⟩ env).2 = .returned err := by
  unfold startBody
  cases hx : v.execErr 0 with
  | some s => exact ⟨_, rfl⟩
  | none => exact ⟨none, by simp [tick]⟩

lemma finalCall_mem_Start_zero (v : GoValue) (env : List LoopEvt) :
    Event.finalCall ∈ (Start ⟨0, v, false⟩ env).1 := by
  obtain ⟨err, herr⟩ := startBody_zero_returns v false env
  unfold Start startWrap
  cases hi : v.initErr with
  | some ie =>
    simp only [Bool.false_eq_true, if_false]
    exact List.mem_cons_of_mem _ (List.mem_append_left _ (finalCall_mem_finalizeDefer _ _))
  | none =>
    rw [herr]
    simp only [Bool.false_eq_true, if_false]
    exact List.mem_cons_of_mem _
      (List.mem_append_left _ (List.mem_append_right _ (finalCall_mem_finalizeDefer _ _)))

/-- C10: a value implementing the full `Task` interface is always
classified with `isSimpleTask = false` by `New` and `NewCron`, because the
`Task` case of the type switch is tested before the `SimpleTask` case, so
it is never registered as a simple task; consequently `Start` of the
one-shot runner built by `New` always invokes its `Initialize` and its
`Finalize`. -/
theorem C10_full_task_never_simple (v : GoValue) (d : Int)
    (hv : implementsTask v = true) (hd : 0 < d) :
    New v = .ok ⟨0, v, false⟩ ∧
    NewCron v d = .ok ⟨d, v, false⟩ ∧
    (∀ r, New v = .ok r → r.isSimpleTask = false) ∧
    (∀ r, NewCron v d = .ok r → r.isSimpleTask = false) ∧
    (∀ env, Event.initCall ∈ (Start ⟨0, v, false⟩ env).1) ∧
    (∀ env, Event.finalCall ∈ (Start ⟨0, v, false⟩ env).1) := by
  have hNew : New v = .ok ⟨0, v, false⟩ := by
    unfold New
    rw [hv]
    simp
  have hCron : NewCron v d = .ok ⟨d, v, false⟩ := by
    unfold NewCron
    rw [if_neg (not_le.mpr hd), hv]
    simp
  refine ⟨hNew, hCron, ?_, ?_, ?_, ?_⟩
  · intro r h
    rw [hNew] at h
    cases h
    rfl
  · intro r h
    rw [hCron] at h
    cases h
    rfl
  · intro env
    exact initCall_mem_startWrap v (startBody ⟨0, v, false⟩ env)
  · intro env
    exact finalCall_mem_Start_zero v env

theorem C10_full_task_never_simple_witness :
    New okTask = .ok ⟨0, okTask, false⟩ ∧
    NewCron okTask 5 = .ok ⟨5, okTask, false⟩ ∧
    (∀ r, New okTask = .ok r → r.isSimpleTask = false) ∧
    (∀ r, NewCron okTask 5 = .ok r → r.isSimpleTask = false) ∧
    (∀ env, Event.initCall ∈ (Start ⟨0, okTask, false⟩ env).1) ∧
    (∀ env, Event.finalCall ∈ (Start ⟨0, okTask, false⟩ env).1) :=
  C10_full_task_never_simple okTask 5 rfl (by decide)

theorem C7_done_closed_exactly_once_witness :
    ∃ pre, (Start ⟨0, okTask, false⟩ []).1 = pre ++ [.closeDone] ∧
      Event.closeDone ∉ pre ∧
      ((⟨0, okTask, false⟩ : RunnerModel).isSimpleTask = false → Event.finalCall ∈ pre) :=
  (C7_done_closed_exactly_once.1 ⟨0, okTask, false⟩ []).2 none (by decide)

end Perses
